import Mathlib

/-!
# Verification of the `exec` call-site timer library (`src/exec_every.h`)

Shallow embedding of the timer/dispatch core and the optional-result
container of the `arduino_exec_every` repository, together with proofs of
the spec's testable properties.

Modelling conventions:
* `uint32_t` values are `Nat`s reduced modulo `2^32` (`u32`); the wrap-safe
  unsigned subtraction `now - last` is `usub32`.
* A poll happens at a single clock instant: the one or two `millis()` calls
  made during one poll all return the same reading `now`.
* A C++ callable condition (plain `bool`, `()`-callable or `(dt)`-callable,
  resolved by `detail::eval`) is modelled uniformly as a `Nat → Bool`
  function of the elapsed time `dt`; a constant condition is a constant
  function.
* Callbacks are modelled as functions of `dt`.  Where the possibility of a
  callback side effect matters (forced execution), the callback additionally
  threads an explicit private state `σ`.
* The static per-call-site `LocalHandle` is modelled by explicit state
  passing: each poll takes the handle state before the poll and returns the
  state after it, together with the returned `Maybe`.
-/

namespace ExecEvery

/-- `2^32`, the modulus of `uint32_t` arithmetic. -/
def u32 : Nat := 4294967296

/-- Unsigned 32-bit subtraction `a - b` (both operands reduced mod `2^32`),
as performed by `uint32_t` arithmetic in `LocalHandle::dt`. -/
def usub32 (a b : Nat) : Nat := (a % u32 + (u32 - b % u32)) % u32

/-- The persistent timer state of `detail::LocalHandle` (exec_every.h,
lines 218-228): the `uint32_t last` field holding the last-fire timestamp.
(The `millis` function pointer member is modelled by passing clock readings
explicitly; the stored callback is passed explicitly as well.) -/
structure LocalHandle where
  last : Nat
  deriving Repr, DecidableEq

/-- `LocalHandle(millis): last(millis())` — construction on first poll
initialises `last` to the current clock reading. -/
def LocalHandle.init (now : Nat) : LocalHandle := ⟨now % u32⟩

/-- `uint32_t dt(uint32_t now) const { return now - last; }` — wrap-safe
elapsed time since the last fire. -/
def LocalHandle.dt (h : LocalHandle) (now : Nat) : Nat := usub32 now h.last

/-- `void reset(uint32_t now) { last = now; }` -/
def LocalHandle.resetAt (h : LocalHandle) (now : Nat) : LocalHandle := ⟨now % u32⟩

/-- `exec::reset(Handle)` → `HandleBase::reset()` → `reset(millis())`:
sets `last` to the clock reading at the moment of reset
(exec_every.h, lines 225-226 and 233-236). -/
def reset (h : LocalHandle) (now : Nat) : LocalHandle := h.resetAt now

/-- The optional-result container `Maybe<T>` (exec_every.h, lines 79-165):
a presence flag, the handle pointer (modelled as a numeric id) and the
payload storage (`box`), which holds a value exactly when `has` is set. -/
structure Maybe (α : Type) where
  has : Bool
  handle : Nat
  box : Option α
  deriving Repr, DecidableEq

/-- `bool valid() const { return has; }` -/
def Maybe.valid {α : Type} (m : Maybe α) : Bool := m.has

/-- The presence-only specialisation `Maybe<void>` (exec_every.h,
lines 167-183): just the flag and the handle pointer. -/
structure MaybeVoid where
  has : Bool
  handle : Nat
  deriving Repr, DecidableEq

/-- `Maybe<void>::valid` -/
def MaybeVoid.valid (m : MaybeVoid) : Bool := m.has

namespace MaybeFactory

/-- `MaybeFactory::empty(h)`: an absent result still carrying the handle. -/
def empty (α : Type) (hid : Nat) : Maybe α := ⟨false, hid, none⟩

/-- `MaybeFactory::value(h, v)`: a present result with payload `v`. -/
def value {α : Type} (hid : Nat) (v : α) : Maybe α := ⟨true, hid, some v⟩

/-- `MaybeFactory::voidValue(h)`: a present `Maybe<void>`. -/
def voidValue (hid : Nat) : MaybeVoid := ⟨true, hid⟩

end MaybeFactory

/-- `Maybe<T>::Maybe(Maybe&& other)` (exec_every.h, lines 116-119):
the destination copies `has` and `handle` and moves the payload out of the
box; then `other.reset()` destroys the source's box and clears its flag.
Returns `(destination, source after the move)`. -/
def Maybe.moveCtor {α : Type} (other : Maybe α) : Maybe α × Maybe α :=
  (⟨other.has, other.handle, other.box⟩, ⟨false, other.handle, none⟩)

/-- `Maybe<T>::operator=(Maybe&& other)` (exec_every.h, lines 130-138) for
`dest ≠ &other`: the destination's old payload is destroyed and replaced by
the source's flag, handle and moved payload; then `other.reset()`.
Returns `(destination after, source after)`. -/
def Maybe.moveAssign {α : Type} (dest other : Maybe α) : Maybe α × Maybe α :=
  (⟨other.has, other.handle, other.box⟩, ⟨false, other.handle, none⟩)

/-- `Maybe<void>::Maybe(Maybe&&) = default` (exec_every.h, line 176):
the defaulted move constructor copies the members and leaves the
moved-from source unchanged. Returns `(destination, source after)`. -/
def MaybeVoid.moveCtor (other : MaybeVoid) : MaybeVoid × MaybeVoid :=
  (⟨other.has, other.handle⟩, other)

/-- `Maybe<void>::operator=(Maybe&&) = default` (exec_every.h, line 179):
memberwise move of trivial members; the source is left unchanged. -/
def MaybeVoid.moveAssign (dest other : MaybeVoid) : MaybeVoid × MaybeVoid :=
  (⟨other.has, other.handle⟩, other)

/-- The decision procedure `every_if_throttled_impl` (exec_every.h,
lines 263-287), specialised to one call site whose handle state is `h` and
whose stored callback is `f` (receiving `dt`):

    uint32_t const now = millis();
    uint32_t const dt  = handle.dt(now);
    if (dt >= interval && detail::eval(throttleCondition, dt)) {
      handle.reset(now);
      if (detail::eval(runCondition, dt)) return handle.exec(dt);
    }
    return detail::MaybeFactory::empty<Ret>(&handle);

`handle.exec(dt)` runs `RunAndReturn<Ret>::run(f, dt, this)`, producing a
present `Maybe` holding `f dt`.  Returns the handle state after the poll
and the `Maybe` the poll returns. -/
def every_if_throttled_impl {α : Type} (interval : Nat)
    (runCondition throttleCondition : Nat → Bool) (f : Nat → α)
    (hid : Nat) (h : LocalHandle) (now : Nat) : LocalHandle × Maybe α :=
  let d := h.dt now
  if interval ≤ d ∧ throttleCondition d = true then
    let h1 := h.resetAt now
    if runCondition d = true then (h1, MaybeFactory.value hid (f d))
    else (h1, MaybeFactory.empty α hid)
  else (h, MaybeFactory.empty α hid)

/-- `every_impl` (exec_every.h, lines 290-293): both conditions fixed `true`. -/
def every_impl {α : Type} (interval : Nat) (f : Nat → α)
    (hid : Nat) (h : LocalHandle) (now : Nat) : LocalHandle × Maybe α :=
  every_if_throttled_impl interval (fun _ => true) (fun _ => true) f hid h now

/-- `every_if_impl` (exec_every.h, lines 298-301): the user condition is the
run condition; the throttle condition is fixed `true`. -/
def every_if_impl {α : Type} (interval : Nat) (c : Nat → Bool) (f : Nat → α)
    (hid : Nat) (h : LocalHandle) (now : Nat) : LocalHandle × Maybe α :=
  every_if_throttled_impl interval c (fun _ => true) f hid h now

/-- `throttled_impl` (exec_every.h, lines 306-309): the run condition is
fixed `true`; the user condition is the throttle condition. -/
def throttled_impl {α : Type} (interval : Nat) (c : Nat → Bool) (f : Nat → α)
    (hid : Nat) (h : LocalHandle) (now : Nat) : LocalHandle × Maybe α :=
  every_if_throttled_impl interval (fun _ => true) c f hid h now

/-- `detail::force(maybe, dt)` (exec_every.h, lines 248-253) over the world
of one call site: the handle state `st`, the result object `m`, and the
stored callback `f`, which may mutate a private state `σ` when invoked.

    if (maybe) return ForceReturn<R>::get(maybe);
    maybe = static_cast<LocalHandle<T>*>(getHandle(maybe))->exec(dt);
    return ForceReturn<R>::get(maybe);

If `m` is present the callback is not invoked and nothing changes; if it is
empty, `exec` runs the callback with `dt` (no interval or condition check,
and no write to `last`) and the result object is overwritten with a present
`Maybe` holding the fresh value.  Returns `(handle state after, result
object after, callback state after)`; the returned payload is the `box` of
the result object after. -/
def force {α σ : Type} (f : Nat → σ → α × σ) (st : LocalHandle)
    (m : Maybe α) (dtArg : Nat) (s : σ) : LocalHandle × Maybe α × σ :=
  if m.has then (st, m, s)
  else
    let vs := f dtArg s
    (st, MaybeFactory.value m.handle vs.1, vs.2)

/-- The handle state of a call site polled repeatedly with scheduling step
`step` (one of the three policies applied to its interval, conditions and
callback): `pollTrace step clock h0 n` is the state just before poll `n`,
where poll `i` happens at clock reading `clock i` (poll `0` starts from
`h0`, the state at first-poll construction). -/
def pollTrace {α : Type} (step : LocalHandle → Nat → LocalHandle × Maybe α)
    (clock : Nat → Nat) (h0 : LocalHandle) : Nat → LocalHandle
  | 0 => h0
  | n + 1 => (step (pollTrace step clock h0 n) (clock n)).1

/-- The `Maybe` returned by poll `n` of the trace. -/
def pollResult {α : Type} (step : LocalHandle → Nat → LocalHandle × Maybe α)
    (clock : Nat → Nat) (h0 : LocalHandle) (n : Nat) : Maybe α :=
  (step (pollTrace step clock h0 n) (clock n)).2

/-- Whether poll `n` of the trace fired (returned a present result). -/
def firesAt {α : Type} (step : LocalHandle → Nat → LocalHandle × Maybe α)
    (clock : Nat → Nat) (h0 : LocalHandle) (n : Nat) : Bool :=
  (pollResult step clock h0 n).has

/-- A well-formed poll schedule over the first `n + 1` polls: every clock
reading fits in `uint32_t` (no wraparound during the trace), the clock
advances monotonically, and the initial `last` is no later than the first
poll. -/
def ClockOK (clock : Nat → Nat) (h0 : LocalHandle) (n : Nat) : Prop :=
  (∀ i, i ≤ n → clock i < u32) ∧ (∀ i, i < n → clock i ≤ clock (i + 1)) ∧
    h0.last ≤ clock 0

instance (clock : Nat → Nat) (h0 : LocalHandle) (n : Nat) :
    Decidable (ClockOK clock h0 n) := by
  unfold ClockOK; infer_instance

end ExecEvery

namespace ExecEvery

/-! ## Helper lemmas -/

theorem usub32_eq_sub (a b : Nat) (hb : b ≤ a) (hlt : a - b < u32) :
    usub32 a b = a - b := by
  simp only [usub32, u32] at hlt ⊢
  omega

theorem LocalHandle.dt_eq_sub (h : LocalHandle) (now : Nat) (hb : h.last ≤ now)
    (hlt : now - h.last < u32) : h.dt now = now - h.last :=
  usub32_eq_sub now h.last hb hlt

/-- A poll whose interval gate fails (deadline not reached, or throttle
condition false) leaves the state untouched and returns empty. -/
theorem impl_of_not_gate {α : Type} {I : Nat} {rc tc : Nat → Bool}
    {f : Nat → α} {hid : Nat} {h : LocalHandle} {now : Nat}
    (hg : ¬(I ≤ h.dt now ∧ tc (h.dt now) = true)) :
    every_if_throttled_impl I rc tc f hid h now
      = (h, MaybeFactory.empty α hid) := by
  simp only [every_if_throttled_impl, if_neg hg]

/-- A poll past the deadline with throttle and run conditions both true
resets the timer and fires. -/
theorem impl_of_gate_run {α : Type} {I : Nat} {rc tc : Nat → Bool}
    {f : Nat → α} {hid : Nat} {h : LocalHandle} {now : Nat}
    (h1 : I ≤ h.dt now) (h2 : tc (h.dt now) = true)
    (h3 : rc (h.dt now) = true) :
    every_if_throttled_impl I rc tc f hid h now
      = (h.resetAt now, MaybeFactory.value hid (f (h.dt now))) := by
  simp only [every_if_throttled_impl]
  rw [if_pos ⟨h1, h2⟩, if_pos h3]

/-- A poll past the deadline with the throttle condition true but the run
condition false resets the timer and returns empty. -/
theorem impl_of_gate_norun {α : Type} {I : Nat} {rc tc : Nat → Bool}
    {f : Nat → α} {hid : Nat} {h : LocalHandle} {now : Nat}
    (h1 : I ≤ h.dt now) (h2 : tc (h.dt now) = true)
    (h3 : rc (h.dt now) = false) :
    every_if_throttled_impl I rc tc f hid h now
      = (h.resetAt now, MaybeFactory.empty α hid) := by
  simp only [every_if_throttled_impl]
  rw [if_pos ⟨h1, h2⟩, if_neg (by simp [h3])]

/-- A poll with `dt` still short of the interval changes nothing. -/
theorem poll_empty_of_dt_lt {α : Type} {I : Nat} {rc tc : Nat → Bool}
    {f : Nat → α} {hid : Nat} {h : LocalHandle} {now : Nat}
    (hdt : h.dt now < I) :
    every_if_throttled_impl I rc tc f hid h now
      = (h, MaybeFactory.empty α hid) :=
  impl_of_not_gate (fun hg => absurd hg.1 (by omega))

/-- The elapsed time read from a freshly written timer value `t`. -/
theorem dt_of_fresh (t tp : Nat) (ht : t < u32) (hle : t ≤ tp)
    (htp : tp < u32) : (⟨t % u32⟩ : LocalHandle).dt tp = tp - t := by
  have h1 : ((⟨t % u32⟩ : LocalHandle)).last = t := Nat.mod_eq_of_lt ht
  have h2 := LocalHandle.dt_eq_sub ⟨t % u32⟩ tp (by rw [h1]; exact hle)
    (by rw [h1]; omega)
  rw [h1] at h2
  exact h2

theorem throttled_impl_eq {α : Type} (I : Nat) (c : Nat → Bool)
    (f : Nat → α) (hid : Nat) :
    throttled_impl I c f hid
      = every_if_throttled_impl I (fun _ => true) c f hid := rfl

theorem every_impl_eq {α : Type} (I : Nat) (f : Nat → α) (hid : Nat) :
    every_impl I f hid
      = every_if_throttled_impl I (fun _ => true) (fun _ => true) f hid := rfl

theorem ClockOK.mono {clock : Nat → Nat} {h0 : LocalHandle} {m n : Nat}
    (h : ClockOK clock h0 n) (hmn : m ≤ n) : ClockOK clock h0 m :=
  ⟨fun i hi => h.1 i (le_trans hi hmn),
   fun i hi => h.2.1 i (lt_of_lt_of_le hi hmn), h.2.2⟩

theorem ClockOK.clock_le {clock : Nat → Nat} {h0 : LocalHandle} {n : Nat}
    (h : ClockOK clock h0 n) {i j : Nat} (hij : i ≤ j) (hjn : j ≤ n) :
    clock i ≤ clock j := by
  induction j with
  | zero =>
    have hi0 : i = 0 := Nat.le_zero.mp hij
    subst hi0; exact le_refl _
  | succ k ih =>
    rcases Nat.lt_or_ge i (k + 1) with hlt | hge
    · exact le_trans (ih (Nat.lt_succ_iff.mp hlt) (by omega))
        (h.2.1 k (by omega))
    · have hik : i = k + 1 := by omega
      subst hik; exact le_refl _

theorem ClockOK.last_le {clock : Nat → Nat} {h0 : LocalHandle} {n : Nat}
    (h : ClockOK clock h0 n) {i : Nat} (hi : i ≤ n) : h0.last ≤ clock i :=
  le_trans h.2.2 (h.clock_le (Nat.zero_le i) hi)

/-- C1: with interval 1000 and the timer started at clock 0, the
unconditional policy polled at t=500 returns empty, fires at t=1000 with
dt=1000, returns empty at t=1500, and fires at t=2000 with dt=1000.
(The callback is `fun d => d`, so the payload records the `dt` passed to
the callback.) -/
theorem C1_every_scenario :
    firesAt (every_impl 1000 (fun d => d) 0)
      (fun n => [500, 1000, 1500, 2000].getD n 0) (LocalHandle.init 0) 0
      = false ∧
    firesAt (every_impl 1000 (fun d => d) 0)
      (fun n => [500, 1000, 1500, 2000].getD n 0) (LocalHandle.init 0) 1
      = true ∧
    pollResult (every_impl 1000 (fun d => d) 0)
      (fun n => [500, 1000, 1500, 2000].getD n 0) (LocalHandle.init 0) 1
      = MaybeFactory.value 0 1000 ∧
    firesAt (every_impl 1000 (fun d => d) 0)
      (fun n => [500, 1000, 1500, 2000].getD n 0) (LocalHandle.init 0) 2
      = false ∧
    firesAt (every_impl 1000 (fun d => d) 0)
      (fun n => [500, 1000, 1500, 2000].getD n 0) (LocalHandle.init 0) 3
      = true ∧
    pollResult (every_impl 1000 (fun d => d) 0)
      (fun n => [500, 1000, 1500, 2000].getD n 0) (LocalHandle.init 0) 3
      = MaybeFactory.value 0 1000 := by
  refine ⟨?_, ?_, ?_, ?_, ?_, ?_⟩ <;> decide

/-- C3: for `every_if`, on any poll where `dt ≥ interval`, `lastFireTime`
is reset to `now` regardless of the run condition; if the run condition is
false at that poll, the result is empty and every poll within a full
interval after `now` (from the reset state) is empty as well and leaves
the state at `now` — the next opportunity to fire is a full interval
later, not sooner. -/
theorem C3_every_if_resets_unconditionally {α : Type} (I : Nat)
    (rc : Nat → Bool) (f : Nat → α) (hid : Nat) (h : LocalHandle)
    (now : Nat) (hnow : now < u32) (hdt : I ≤ h.dt now) :
    (every_if_impl I rc f hid h now).1 = (⟨now⟩ : LocalHandle) ∧
    (rc (h.dt now) = false →
      every_if_impl I rc f hid h now
        = ((⟨now⟩ : LocalHandle), MaybeFactory.empty α hid) ∧
      ∀ tp, now ≤ tp → tp < u32 → tp - now < I →
        every_if_impl I rc f hid (⟨now⟩ : LocalHandle) tp
          = ((⟨now⟩ : LocalHandle), MaybeFactory.empty α hid)) := by
  have hreset : h.resetAt now = (⟨now⟩ : LocalHandle) := by
    simp [LocalHandle.resetAt, Nat.mod_eq_of_lt hnow]
  have hmod : (⟨now % u32⟩ : LocalHandle) = (⟨now⟩ : LocalHandle) := by
    simp [Nat.mod_eq_of_lt hnow]
  constructor
  · rcases hrc : rc (h.dt now) with hF | hT
    · rw [show every_if_impl I rc f hid h now
          = every_if_throttled_impl I rc (fun _ => true) f hid h now from rfl,
        impl_of_gate_norun hdt rfl hrc, hreset]
    · rw [show every_if_impl I rc f hid h now
          = every_if_throttled_impl I rc (fun _ => true) f hid h now from rfl,
        impl_of_gate_run hdt rfl hrc, hreset]
  · intro hrc
    constructor
    · rw [show every_if_impl I rc f hid h now
          = every_if_throttled_impl I rc (fun _ => true) f hid h now from rfl,
        impl_of_gate_norun hdt rfl hrc, hreset]
    · intro tp hle htp hlt
      have hdtp : (⟨now⟩ : LocalHandle).dt tp = tp - now := by
        rw [← hmod]; exact dt_of_fresh now tp hnow hle htp
      rw [show every_if_impl I rc f hid (⟨now⟩ : LocalHandle) tp
          = every_if_throttled_impl I rc (fun _ => true) f hid ⟨now⟩ tp from rfl,
        poll_empty_of_dt_lt (by rw [hdtp]; omega)]

/-- Witness for C3 at interval 100, a run condition that is false at the
deadline, initial `last = 0`, deadline poll at 150, follow-up poll at 249. -/
theorem C3_witness :
    (150 : Nat) < u32 ∧ 100 ≤ (⟨0⟩ : LocalHandle).dt 150 ∧
    ((fun d => decide (1000 ≤ d)) ((⟨0⟩ : LocalHandle).dt 150) = false) ∧
    (every_if_impl 100 (fun d => decide (1000 ≤ d)) (fun d => d) 0 ⟨0⟩ 150).1
      = (⟨150⟩ : LocalHandle) ∧
    every_if_impl 100 (fun d => decide (1000 ≤ d)) (fun d => d) 0 ⟨0⟩ 150
      = ((⟨150⟩ : LocalHandle), MaybeFactory.empty Nat 0) ∧
    every_if_impl 100 (fun d => decide (1000 ≤ d)) (fun d => d) 0 ⟨150⟩ 249
      = ((⟨150⟩ : LocalHandle), MaybeFactory.empty Nat 0) := by
  have hc := C3_every_if_resets_unconditionally 100 (fun d => decide (1000 ≤ d))
    (fun d => d) 0 ⟨0⟩ 150 (by decide) (by decide)
  exact ⟨by decide, by decide, by decide, hc.1, (hc.2 (by decide)).1,
    (hc.2 (by decide)).2 249 (by decide) (by decide) (by decide)⟩

/-- C4: `force()` on an empty result invokes the stored callback with no
interval or condition check (the callback's private state advances), makes
the result present with the freshly computed value, and that value is the
returned payload; `force()` on a present result invokes nothing (callback
state unchanged) and leaves the result object — hence the returned
payload — unchanged. -/
theorem C4_force {α σ : Type} (f : Nat → σ → α × σ) (st : LocalHandle)
    (m : Maybe α) (d : Nat) (s : σ) :
    (m.has = false →
      force f st m d s
        = (st, MaybeFactory.value m.handle (f d s).1, (f d s).2)) ∧
    (m.has = true → force f st m d s = (st, m, s)) := by
  constructor
  · intro hm; simp [force, hm]
  · intro hm; simp [force, hm]

/-- Witness for C4: forcing an empty result runs the callback (state 2 → 3)
and yields payload `5 + 2 = 7`; forcing a present result changes nothing. -/
theorem C4_witness :
    ((MaybeFactory.empty Nat 7).has = false) ∧
    force (fun d s => (d + s, s + 1)) (⟨0⟩ : LocalHandle)
        (MaybeFactory.empty Nat 7) 5 2
      = ((⟨0⟩ : LocalHandle), MaybeFactory.value 7 7, 3) ∧
    ((MaybeFactory.value 7 9 : Maybe Nat).has = true) ∧
    force (fun d s => (d + s, s + 1)) (⟨0⟩ : LocalHandle)
        (MaybeFactory.value 7 9) 5 2
      = ((⟨0⟩ : LocalHandle), MaybeFactory.value 7 9, 2) :=
  ⟨rfl,
    (C4_force (fun d s => (d + s, s + 1)) ⟨0⟩ (MaybeFactory.empty Nat 7) 5 2).1 rfl,
    rfl,
    (C4_force (fun d s => (d + s, s + 1)) ⟨0⟩ (MaybeFactory.value 7 9) 5 2).2 rfl⟩

/-- C5: after `reset(handle)` at clock reading `t`, `lastFireTime` equals
`t`, and any poll (under any policy: arbitrary conditions) at a reading
`tp` with `tp - t < I` returns empty and leaves the state unchanged, so
the callback is not invoked before `t + I`. -/
theorem C5_reset_blocks_interval {α : Type} (I : Nat) (rc tc : Nat → Bool)
    (f : Nat → α) (hid : Nat) (h : LocalHandle) (t tp : Nat)
    (ht : t < u32) (hle : t ≤ tp) (htp : tp < u32) (hlt : tp - t < I) :
    (reset h t).last = t ∧
    every_if_throttled_impl I rc tc f hid (reset h t) tp
      = (reset h t, MaybeFactory.empty α hid) := by
  have hlast : (reset h t).last = t := Nat.mod_eq_of_lt ht
  refine ⟨hlast, ?_⟩
  have hdt : (reset h t).dt tp = tp - t := dt_of_fresh t tp ht hle htp
  exact poll_empty_of_dt_lt (by rw [hdt]; omega)

/-- Witness for C5: reset at t=50 with interval 100; the poll at 149
(under the unconditional policy) is empty. -/
theorem C5_witness :
    (50 : Nat) < u32 ∧ (50 : Nat) ≤ 149 ∧ (149 : Nat) < u32 ∧
    (149 : Nat) - 50 < 100 ∧
    (reset (⟨0⟩ : LocalHandle) 50).last = 50 ∧
    every_if_throttled_impl 100 (fun _ => true) (fun _ => true) (fun d => d) 0
        (reset ⟨0⟩ 50) 149 = (reset ⟨0⟩ 50, MaybeFactory.empty Nat 0) := by
  have hc := C5_reset_blocks_interval 100 (fun _ => true) (fun _ => true)
    (fun d => d) 0 ⟨0⟩ 50 149 (by decide) (by decide) (by decide) (by decide)
  exact ⟨by decide, by decide, by decide, by decide, hc.1, hc.2⟩

/-- C7: `dt` is the wrap-safe unsigned 32-bit subtraction
`now - lastFireTime` (see `usub32`); provided at most one wraparound
occurred (true elapsed time `< 2^32`), the value computed from the wrapped
`uint32_t` clock readings equals the true elapsed duration, also when the
counter wraps from near its maximum to near zero. -/
theorem C7_dt_wraparound (trueLast trueNow : Nat) (hle : trueLast ≤ trueNow)
    (hlt : trueNow - trueLast < u32) :
    (LocalHandle.init trueLast).dt (trueNow % u32) = trueNow - trueLast := by
  simp only [LocalHandle.init, LocalHandle.dt, usub32, u32] at hlt ⊢
  omega

/-- Witness for C7 across a wraparound: `last` read at true time
`2^32 - 5` (stored as `4294967291`), `now` read at true time `2^32 + 5`
(counter wrapped to `5`); `dt` is the true elapsed 10. -/
theorem C7_witness :
    (4294967291 : Nat) ≤ 4294967301 ∧ (4294967301 : Nat) - 4294967291 < u32 ∧
    (LocalHandle.init 4294967291).last = 4294967291 ∧
    (4294967301 : Nat) % u32 = 5 ∧
    (LocalHandle.init 4294967291).dt (4294967301 % u32) = 10 :=
  ⟨by decide, by decide, by decide, by decide,
    C7_dt_wraparound 4294967291 4294967301 (by decide) (by decide)⟩

/-- C8 counterexample: the claim asserts that for every result type,
void included, the moved-from source is left empty (`valid()` false).
For `Maybe<void>` the move constructor is defaulted (exec_every.h,
line 176), so a moved-from present `Maybe<void>` still reports
`valid() = true`. -/
theorem C8_counterexample :
    ¬ ((MaybeVoid.moveCtor (MaybeFactory.voidValue 3)).2.valid = false) := by
  decide

/-- C8 (amended): for non-void `T`, move-construction and move-assignment
transfer the flag, handle and payload to the destination and leave the
moved-from source empty (`valid()` false, storage destroyed); for
`Maybe<void>`, the defaulted move operations copy the members to the
destination and leave the moved-from source unchanged. -/
theorem C8_move_semantics :
    ∀ (α : Type) (m dest : Maybe α) (v w : MaybeVoid),
    (Maybe.moveCtor m).1 = ⟨m.has, m.handle, m.box⟩ ∧
    (Maybe.moveCtor m).2.valid = false ∧ (Maybe.moveCtor m).2.box = none ∧
    (Maybe.moveAssign dest m).1 = ⟨m.has, m.handle, m.box⟩ ∧
    (Maybe.moveAssign dest m).2.valid = false ∧
    (Maybe.moveAssign dest m).2.box = none ∧
    (MaybeVoid.moveCtor v).1 = ⟨v.has, v.handle⟩ ∧
    (MaybeVoid.moveCtor v).2 = v ∧
    (MaybeVoid.moveAssign w v).1 = ⟨v.has, v.handle⟩ ∧
    (MaybeVoid.moveAssign w v).2 = v :=
  fun α m dest v w =>
    ⟨rfl, rfl, rfl, rfl, rfl, rfl, rfl, rfl, rfl, rfl⟩

/-- C9: `force` never writes `lastFireTime` (it runs only the callback, no
reset), so the handle state after a force equals the state before it, and
every subsequent normal poll — any policy, any interval, any clock
reading — decides exactly as it would have without the force call.  The
only channel left is the callback's own private state `σ`, which `force`
threads through the callback. -/
theorem C9_force_preserves_timer {α σ : Type} (f : Nat → σ → α × σ)
    (st : LocalHandle) (m : Maybe α) (d : Nat) (s : σ) :
    (force f st m d s).1 = st ∧
    ∀ (β : Type) (I : Nat) (rc tc : Nat → Bool) (g : Nat → β)
      (hid now : Nat),
      every_if_throttled_impl I rc tc g hid (force f st m d s).1 now
        = every_if_throttled_impl I rc tc g hid st now := by
  have h1 : (force f st m d s).1 = st := by
    by_cases hm : m.has <;> simp [force, hm]
  exact ⟨h1, fun β I rc tc g hid now => by rw [h1]⟩

/-- C10: the call-site state is built on the first poll with
`lastFireTime` equal to that poll's clock reading, so for `I > 0` the
first poll (any policy) returns empty, and every poll within `I` of the
first returns empty from that state — the first fire can occur no earlier
than the first poll's time plus `I`. -/
theorem C10_first_poll_empty {α : Type} (I : Nat) (rc tc : Nat → Bool)
    (f : Nat → α) (hid : Nat) (now : Nat) (hI : 0 < I) (hnow : now < u32) :
    (LocalHandle.init now).last = now ∧
    every_if_throttled_impl I rc tc f hid (LocalHandle.init now) now
      = (LocalHandle.init now, MaybeFactory.empty α hid) ∧
    ∀ tp, now ≤ tp → tp < u32 → tp - now < I →
      every_if_throttled_impl I rc tc f hid (LocalHandle.init now) tp
        = (LocalHandle.init now, MaybeFactory.empty α hid) := by
  have hlast : (LocalHandle.init now).last = now := Nat.mod_eq_of_lt hnow
  have hpoll : ∀ tp, now ≤ tp → tp < u32 → tp - now < I →
      every_if_throttled_impl I rc tc f hid (LocalHandle.init now) tp
        = (LocalHandle.init now, MaybeFactory.empty α hid) := by
    intro tp hle htp hlt
    have hdt : (LocalHandle.init now).dt tp = tp - now :=
      dt_of_fresh now tp hnow hle htp
    exact poll_empty_of_dt_lt (by rw [hdt]; omega)
  exact ⟨hlast, hpoll now (le_refl now) hnow (by omega), hpoll⟩

/-- Witness for C10: first poll at clock 300 with interval 100 is empty,
and so is a poll at 399. -/
theorem C10_witness :
    (0 : Nat) < 100 ∧ (300 : Nat) < u32 ∧
    (LocalHandle.init 300).last = 300 ∧
    every_if_throttled_impl 100 (fun _ => true) (fun _ => true) (fun d => d) 0
        (LocalHandle.init 300) 300
      = (LocalHandle.init 300, MaybeFactory.empty Nat 0) ∧
    every_if_throttled_impl 100 (fun _ => true) (fun _ => true) (fun d => d) 0
        (LocalHandle.init 300) 399
      = (LocalHandle.init 300, MaybeFactory.empty Nat 0) := by
  have hc := C10_first_poll_empty 100 (fun _ => true) (fun _ => true)
    (fun d => d) 0 300 (by decide) (by decide)
  exact ⟨by decide, by decide, hc.1, hc.2.1,
    hc.2.2 399 (by decide) (by decide) (by decide)⟩

/-- C2: for the throttled policy, suppose the deadline has passed at poll 0
(`I ≤ clock 0 - last`) and the throttle condition — re-evaluated at every
poll on the accumulating `dt` — is false at polls `0 … k-1`.  Then
`lastFireTime` is never modified through poll `k` (the timer keeps
accumulating), those polls return empty, and if the condition is true at
poll `k` the callback fires right there with the full accumulated
`dt = clock k - last` — no additional interval delay beyond the first. -/
theorem C2_throttled_accumulates {α : Type} (I : Nat) (tc : Nat → Bool)
    (f : Nat → α) (hid : Nat) (clock : Nat → Nat) (h0 : LocalHandle)
    (k : Nat) (hok : ClockOK clock h0 k) (hI : I ≤ clock 0 - h0.last)
    (hfalse : ∀ i, i < k → tc (clock i - h0.last) = false) :
    (∀ i, i ≤ k → pollTrace (throttled_impl I tc f hid) clock h0 i = h0) ∧
    (∀ i, i < k → pollResult (throttled_impl I tc f hid) clock h0 i
        = MaybeFactory.empty α hid) ∧
    (tc (clock k - h0.last) = true →
      firesAt (throttled_impl I tc f hid) clock h0 k = true ∧
      pollResult (throttled_impl I tc f hid) clock h0 k
        = MaybeFactory.value hid (f (clock k - h0.last))) := by
  have hdt0 : ∀ i, i ≤ k → h0.dt (clock i) = clock i - h0.last := by
    intro i hik
    exact LocalHandle.dt_eq_sub h0 (clock i) (hok.last_le hik)
      (by have := hok.1 i hik; omega)
  have hgate : ∀ i, i < k →
      ¬(I ≤ h0.dt (clock i) ∧ tc (h0.dt (clock i)) = true) := by
    intro i hik
    rw [hdt0 i (le_of_lt hik)]
    rintro ⟨-, htc⟩
    rw [hfalse i hik] at htc
    exact absurd htc (by decide)
  have hstate : ∀ i, i ≤ k →
      pollTrace (throttled_impl I tc f hid) clock h0 i = h0 := by
    intro i
    induction i with
    | zero => intro _; rfl
    | succ j ih =>
      intro hjk
      have hj : j ≤ k := Nat.le_of_succ_le hjk
      have hjlt : j < k := hjk
      have hrec : pollTrace (throttled_impl I tc f hid) clock h0 (j + 1)
          = (throttled_impl I tc f hid
              (pollTrace (throttled_impl I tc f hid) clock h0 j)
              (clock j)).1 := rfl
      rw [hrec, ih hj, throttled_impl_eq, impl_of_not_gate (hgate j hjlt)]
  have hIdt : I ≤ h0.dt (clock k) := by
    rw [hdt0 k (le_refl k)]
    have h1 := hok.clock_le (Nat.zero_le k) (le_refl k)
    have h2 := hok.2.2
    omega
  refine ⟨hstate, ?_, ?_⟩
  · intro i hik
    have hres : pollResult (throttled_impl I tc f hid) clock h0 i
        = (throttled_impl I tc f hid
            (pollTrace (throttled_impl I tc f hid) clock h0 i)
            (clock i)).2 := rfl
    rw [hres, hstate i (le_of_lt hik), throttled_impl_eq,
      impl_of_not_gate (hgate i hik)]
  · intro htrue
    have htc : tc (h0.dt (clock k)) = true := by
      rw [hdt0 k (le_refl k)]; exact htrue
    have hres : pollResult (throttled_impl I tc f hid) clock h0 k
        = (throttled_impl I tc f hid
            (pollTrace (throttled_impl I tc f hid) clock h0 k)
            (clock k)).2 := rfl
    have hval : pollResult (throttled_impl I tc f hid) clock h0 k
        = MaybeFactory.value hid (f (clock k - h0.last)) := by
      rw [hres, hstate k (le_refl k), throttled_impl_eq,
        impl_of_gate_run hIdt htc rfl, hdt0 k (le_refl k)]
    refine ⟨?_, hval⟩
    unfold firesAt
    rw [hval]
    rfl

/-- Witness for C2: interval 500, condition "dt ≥ 1200", polls at clock 500
(condition false, timer untouched) and clock 1200 (condition true): the
callback fires at poll 1 with the accumulated dt = 1200. -/
theorem C2_witness :
    ClockOK (fun n => 500 + 700 * n) (⟨0⟩ : LocalHandle) 1 ∧
    (500 : Nat) ≤ (fun n : Nat => 500 + 700 * n) 0 - (⟨0⟩ : LocalHandle).last ∧
    pollTrace
        (throttled_impl 500 (fun d => decide (1200 ≤ d)) (fun d => d) 0)
        (fun n => 500 + 700 * n) ⟨0⟩ 1 = (⟨0⟩ : LocalHandle) ∧
    pollResult
        (throttled_impl 500 (fun d => decide (1200 ≤ d)) (fun d => d) 0)
        (fun n => 500 + 700 * n) ⟨0⟩ 0 = MaybeFactory.empty Nat 0 ∧
    firesAt (throttled_impl 500 (fun d => decide (1200 ≤ d)) (fun d => d) 0)
        (fun n => 500 + 700 * n) ⟨0⟩ 1 = true ∧
    pollResult
        (throttled_impl 500 (fun d => decide (1200 ≤ d)) (fun d => d) 0)
        (fun n => 500 + 700 * n) ⟨0⟩ 1 = MaybeFactory.value 0 1200 := by
  have hc := C2_throttled_accumulates 500 (fun d => decide (1200 ≤ d))
    (fun d => d) 0 (fun n => 500 + 700 * n) ⟨0⟩ 1 (by decide) (by decide)
    (by decide)
  exact ⟨by decide, by decide, hc.1 1 (le_refl 1), hc.2.1 0 (by decide),
    (hc.2.2 (by decide)).1, (hc.2.2 (by decide)).2⟩

/-! ### The unconditional policy over a trace -/

theorem every_step_fst {α : Type} (I : Nat) (f : Nat → α) (hid : Nat)
    (h : LocalHandle) (now : Nat) :
    (every_impl I f hid h now).1
      = if I ≤ h.dt now then (⟨now % u32⟩ : LocalHandle) else h := by
  by_cases hI : I ≤ h.dt now
  · rw [every_impl_eq, impl_of_gate_run hI rfl rfl, if_pos hI]
    rfl
  · rw [every_impl_eq, impl_of_not_gate (fun hg => hI hg.1), if_neg hI]

theorem every_step_fires {α : Type} (I : Nat) (f : Nat → α) (hid : Nat)
    (h : LocalHandle) (now : Nat) :
    (every_impl I f hid h now).2.has = decide (I ≤ h.dt now) := by
  by_cases hI : I ≤ h.dt now
  · rw [every_impl_eq, impl_of_gate_run hI rfl rfl]
    simp [MaybeFactory.value, hI]
  · rw [every_impl_eq, impl_of_not_gate (fun hg => hI hg.1)]
    simp [MaybeFactory.empty, hI]

theorem everyTrace_last_le {α : Type} (I : Nat) (f : Nat → α) (hid : Nat)
    (clock : Nat → Nat) (h0 : LocalHandle) :
    ∀ n, ClockOK clock h0 n →
      (pollTrace (every_impl I f hid) clock h0 n).last ≤ clock n ∧
      (pollTrace (every_impl I f hid) clock h0 n).last < u32 := by
  intro n
  induction n with
  | zero =>
    intro hok
    exact ⟨hok.2.2, lt_of_le_of_lt hok.2.2 (hok.1 0 (le_refl 0))⟩
  | succ k ih =>
    intro hok
    have IH := ih (hok.mono (Nat.le_succ k))
    have hck : clock k < u32 := hok.1 k (by omega)
    have hstep : pollTrace (every_impl I f hid) clock h0 (k + 1)
        = (every_impl I f hid (pollTrace (every_impl I f hid) clock h0 k)
            (clock k)).1 := rfl
    rw [hstep, every_step_fst]
    split_ifs with hfire
    · constructor
      · show clock k % u32 ≤ clock (k + 1)
        rw [Nat.mod_eq_of_lt hck]
        exact hok.2.1 k (by omega)
      · show clock k % u32 < u32
        rw [Nat.mod_eq_of_lt hck]
        exact hck
    · exact ⟨le_trans IH.1 (hok.2.1 k (by omega)), IH.2⟩

theorem everyTrace_dt {α : Type} (I : Nat) (f : Nat → α) (hid : Nat)
    (clock : Nat → Nat) (h0 : LocalHandle) (n : Nat)
    (hok : ClockOK clock h0 n) :
    (pollTrace (every_impl I f hid) clock h0 n).dt (clock n)
      = clock n - (pollTrace (every_impl I f hid) clock h0 n).last := by
  have hb := everyTrace_last_le I f hid clock h0 n hok
  exact LocalHandle.dt_eq_sub _ _ hb.1
    (by have := hok.1 n (le_refl n); omega)

theorem everyFires_iff {α : Type} (I : Nat) (f : Nat → α) (hid : Nat)
    (clock : Nat → Nat) (h0 : LocalHandle) (n : Nat)
    (hok : ClockOK clock h0 n) :
    firesAt (every_impl I f hid) clock h0 n
      = decide (I ≤ clock n
          - (pollTrace (every_impl I f hid) clock h0 n).last) := by
  have hres : firesAt (every_impl I f hid) clock h0 n
      = (every_impl I f hid (pollTrace (every_impl I f hid) clock h0 n)
          (clock n)).2.has := rfl
  rw [hres, every_step_fires, everyTrace_dt I f hid clock h0 n hok]

theorem everyTrace_succ_of_fire {α : Type} (I : Nat) (f : Nat → α)
    (hid : Nat) (clock : Nat → Nat) (h0 : LocalHandle) (n : Nat)
    (hf : firesAt (every_impl I f hid) clock h0 n = true) :
    pollTrace (every_impl I f hid) clock h0 (n + 1)
      = (⟨clock n % u32⟩ : LocalHandle) := by
  have hstep : pollTrace (every_impl I f hid) clock h0 (n + 1)
      = (every_impl I f hid (pollTrace (every_impl I f hid) clock h0 n)
          (clock n)).1 := rfl
  have hd : decide (I ≤ (pollTrace (every_impl I f hid) clock h0 n).dt
      (clock n)) = true := by
    rw [← every_step_fires I f hid]; exact hf
  rw [hstep, every_step_fst, if_pos (of_decide_eq_true hd)]

theorem everyTrace_succ_of_not_fire {α : Type} (I : Nat) (f : Nat → α)
    (hid : Nat) (clock : Nat → Nat) (h0 : LocalHandle) (n : Nat)
    (hf : firesAt (every_impl I f hid) clock h0 n = false) :
    pollTrace (every_impl I f hid) clock h0 (n + 1)
      = pollTrace (every_impl I f hid) clock h0 n := by
  have hstep : pollTrace (every_impl I f hid) clock h0 (n + 1)
      = (every_impl I f hid (pollTrace (every_impl I f hid) clock h0 n)
          (clock n)).1 := rfl
  have hd : decide (I ≤ (pollTrace (every_impl I f hid) clock h0 n).dt
      (clock n)) = false := by
    rw [← every_step_fires I f hid]; exact hf
  rw [hstep, every_step_fst, if_neg (of_decide_eq_false hd)]

theorem everyTrace_no_fire_init {α : Type} (I : Nat) (f : Nat → α)
    (hid : Nat) (clock : Nat → Nat) (h0 : LocalHandle) :
    ∀ n, (∀ j, j < n → firesAt (every_impl I f hid) clock h0 j = false) →
      (pollTrace (every_impl I f hid) clock h0 n).last = h0.last := by
  intro n
  induction n with
  | zero => intro _; rfl
  | succ k ih =>
    intro hnf
    rw [everyTrace_succ_of_not_fire I f hid clock h0 k
      (hnf k (Nat.lt_succ_self k))]
    exact ih (fun j hj => hnf j (by omega))

theorem everyTrace_last_after_fire {α : Type} (I : Nat) (f : Nat → α)
    (hid : Nat) (clock : Nat → Nat) (h0 : LocalHandle) (m : Nat) :
    ∀ n, m < n → ClockOK clock h0 n →
      firesAt (every_impl I f hid) clock h0 m = true →
      (∀ j, m < j → j < n → firesAt (every_impl I f hid) clock h0 j = false) →
      (pollTrace (every_impl I f hid) clock h0 n).last = clock m := by
  intro n
  induction n with
  | zero => intro h; exact absurd h (Nat.not_lt_zero m)
  | succ k ih =>
    intro hmn hok hfm hnof
    rcases Nat.lt_or_ge m k with hmk | hmk
    · rw [everyTrace_succ_of_not_fire I f hid clock h0 k
        (hnof k hmk (Nat.lt_succ_self k))]
      exact ih hmk (hok.mono (Nat.le_succ k)) hfm
        (fun j h1 h2 => hnof j h1 (by omega))
    · have hmk2 : m = k := by omega
      subst hmk2
      rw [everyTrace_succ_of_fire I f hid clock h0 m hfm]
      show clock m % u32 = clock m
      exact Nat.mod_eq_of_lt (hok.1 m (by omega))

theorem everyTrace_last_mono {α : Type} (I : Nat) (f : Nat → α) (hid : Nat)
    (clock : Nat → Nat) (h0 : LocalHandle) (m : Nat) :
    ∀ n, m ≤ n → ClockOK clock h0 n →
      (pollTrace (every_impl I f hid) clock h0 m).last
        ≤ (pollTrace (every_impl I f hid) clock h0 n).last := by
  intro n
  induction n with
  | zero =>
    intro hmn _
    have hm0 : m = 0 := Nat.le_zero.mp hmn
    subst hm0; exact le_refl _
  | succ k ih =>
    intro hmn hok
    rcases Nat.lt_or_ge m (k + 1) with hlt | hge
    · have hmk : m ≤ k := Nat.lt_succ_iff.mp hlt
      have step := ih hmk (hok.mono (Nat.le_succ k))
      cases hfb : firesAt (every_impl I f hid) clock h0 k with
      | false =>
        rw [everyTrace_succ_of_not_fire I f hid clock h0 k hfb]
        exact step
      | true =>
        rw [everyTrace_succ_of_fire I f hid clock h0 k hfb]
        show _ ≤ clock k % u32
        rw [Nat.mod_eq_of_lt (hok.1 k (by omega))]
        have hb := everyTrace_last_le I f hid clock h0 k
          (hok.mono (Nat.le_succ k))
        exact le_trans step hb.1
    · have hmk : m = k + 1 := by omega
      subst hmk; exact le_refl _

/-- C6: for the unconditional policy over any monotone, non-wrapping poll
schedule, (i) poll `n` fires iff the elapsed time since the reference point
`(pollTrace …).last` is at least `I`; (ii) before the first fire that
reference point is the start value `h0.last`, and (iii) after a fire at
poll `m` (with no fire in between) it is `clock m`, the time of the last
fire — so the firing criterion is elapsed-time-since-last-fire ≥ I; and
(iv) any two firing polls are at least `I` apart: it never fires twice
within one interval window. -/
theorem C6_every_fires_iff_elapsed {α : Type} (I : Nat) (f : Nat → α)
    (hid : Nat) (clock : Nat → Nat) (h0 : LocalHandle) (n : Nat)
    (hok : ClockOK clock h0 n) :
    (firesAt (every_impl I f hid) clock h0 n
      = decide (I ≤ clock n
          - (pollTrace (every_impl I f hid) clock h0 n).last)) ∧
    ((∀ j, j < n → firesAt (every_impl I f hid) clock h0 j = false) →
      (pollTrace (every_impl I f hid) clock h0 n).last = h0.last) ∧
    (∀ m, m < n → firesAt (every_impl I f hid) clock h0 m = true →
      (∀ j, m < j → j < n → firesAt (every_impl I f hid) clock h0 j = false) →
      (pollTrace (every_impl I f hid) clock h0 n).last = clock m) ∧
    (∀ m, m < n → firesAt (every_impl I f hid) clock h0 m = true →
      firesAt (every_impl I f hid) clock h0 n = true →
      I ≤ clock n - clock m) := by
  refine ⟨everyFires_iff I f hid clock h0 n hok,
    everyTrace_no_fire_init I f hid clock h0 n,
    fun m hm hfm hnof =>
      everyTrace_last_after_fire I f hid clock h0 m n hm hok hfm hnof, ?_⟩
  intro m hmn hfm hfn
  have h1 : (pollTrace (every_impl I f hid) clock h0 (m + 1)).last
      = clock m := by
    rw [everyTrace_succ_of_fire I f hid clock h0 m hfm]
    exact Nat.mod_eq_of_lt (hok.1 m (by omega))
  have h2 := everyTrace_last_mono I f hid clock h0 (m + 1) n hmn hok
  have h3 := (everyTrace_last_le I f hid clock h0 n hok).1
  have h4 : I ≤ clock n - (pollTrace (every_impl I f hid) clock h0 n).last :=
    of_decide_eq_true (by rw [← everyFires_iff I f hid clock h0 n hok]; exact hfn)
  rw [h1] at h2
  omega

/-- Witness for C6: interval 1000, polls every 500 ticks from a timer
started at 0; polls 2 (t=1000) and 4 (t=2000) both fire and are a full
interval apart. -/
theorem C6_witness :
    ClockOK (fun i => 500 * i) (⟨0⟩ : LocalHandle) 4 ∧
    firesAt (every_impl 1000 (fun d => d) 0) (fun i => 500 * i) ⟨0⟩ 2
      = true ∧
    firesAt (every_impl 1000 (fun d => d) 0) (fun i => 500 * i) ⟨0⟩ 4
      = true ∧
    firesAt (every_impl 1000 (fun d => d) 0) (fun i => 500 * i) ⟨0⟩ 4
      = decide (1000 ≤ (fun i : Nat => 500 * i) 4
          - (pollTrace (every_impl 1000 (fun d => d) 0)
              (fun i => 500 * i) ⟨0⟩ 4).last) ∧
    1000 ≤ (fun i : Nat => 500 * i) 4 - (fun i : Nat => 500 * i) 2 := by
  have hc := C6_every_fires_iff_elapsed 1000 (fun d => d) 0
    (fun i => 500 * i) ⟨0⟩ 4 (by decide)
  exact ⟨by decide, by decide, by decide, hc.1,
    hc.2.2.2 2 (by decide) (by decide) (by decide)⟩

end ExecEvery
